import Mathlib

/-!
Verification of the kaserve static HTTP server's request pipeline.

The development shallowly embeds the decision logic of the server:
filesystem path resolution, route and virtual-host pattern matching,
ACL rule evaluation, URL rewriting, compression negotiation and the
file-service error path.  Paths are modelled as lists of segments,
byte payloads as lists of naturals, and the regex library is embedded
by executable matchers realising the language of the concrete regexes
the code builds.
-/

set_option maxRecDepth 4000

namespace Kaserve

/-! ### Path model

A filesystem path is a list of segments.  A request path string is
split into components the way Rust's Path::components does after
trim_start_matches('/'): empty segments and "." segments are dropped
(leading slashes therefore disappear), while ".." segments are kept. -/

/-- Splits a character list on a separator character into segment
strings. -/
def splitCharAux (sep : Char) : List Char → List Char → List String
  | [], acc => [String.mk acc.reverse]
  | c :: rest, acc =>
    if c = sep then String.mk acc.reverse :: splitCharAux sep rest []
    else splitCharAux sep rest (c :: acc)

/-- Segments of a request path: split on '/' and drop empty and "." parts,
mirroring trim_start_matches('/') followed by Path::components. -/
def pathComponents (s : String) : List String :=
  (splitCharAux '/' s.data []).filter (fun seg => seg != "" && seg != ".")

/-- Decimal digit-string parser used by the CIDR model. -/
def parseNatAux : List Char → Nat → Option Nat
  | [], acc => some acc
  | c :: rest, acc =>
    if '0' ≤ c ∧ c ≤ '9' then parseNatAux rest (acc * 10 + (c.toNat - 48))
    else none

/-- Parses a nonempty all-digit string as a natural number. -/
def parseNat (s : String) : Option Nat :=
  match s.data with
  | [] => none
  | cs => parseNatAux cs 0

/-- Embeds StaticFileHandler::get_file_path (src/handlers/static_files.rs):
strip leading '/', walk the components pushing every one that is not "..",
then join onto the root directory. -/
def get_file_path (root_dir : List String) (path : String) : List String :=
  root_dir ++ (pathComponents path).filter (fun c => c != "..")

/-- Embeds FileService::resolve_file_path (src/file_service.rs): strip
leading '/'; empty remainder resolves to root/index.html; a directory gets
index.html appended; otherwise the segments are joined onto the root as-is
(no ".." filtering).  The filesystem's directory test is a parameter. -/
def resolve_file_path (isDir : List String → Bool) (root_dir : List String)
    (req_path : String) : List String :=
  let clean := pathComponents req_path
  if clean.isEmpty then root_dir ++ ["index.html"]
  else
    let raw := root_dir ++ clean
    if isDir raw then raw ++ ["index.html"] else raw

/-- Walking the relative part of a resolved path left to right while
resolving ".." segments: returns true when the walk ever pops above the
starting depth, i.e. the path escapes the directory it is relative to. -/
def escapesRoot : List String → Nat → Bool
  | [], _ => false
  | seg :: rest, depth =>
    if seg = ".." then
      match depth with
      | 0 => true
      | d + 1 => escapesRoot rest d
    else
      escapesRoot rest (depth + 1)

/-- Boolean list-prefix test used to state the containment property. -/
def isPrefixList : List String → List String → Bool
  | [], _ => true
  | _ :: _, [] => false
  | a :: l, b :: m => (a = b) && isPrefixList l m

/-- A resolved path stays within the root when the root is literally a
prefix of it and its relative part never resolves above the root. -/
def underRoot (root resolved : List String) : Bool :=
  isPrefixList root resolved && !(escapesRoot (resolved.drop root.length) 0)

theorem isPrefixList_append (root l : List String) :
    isPrefixList root (root ++ l) = true := by
  induction root with
  | nil => rfl
  | cons a r ih => simp [isPrefixList, ih]

theorem escapesRoot_of_no_dotdot (l : List String) (d : Nat)
    (h : ∀ s ∈ l, s ≠ "..") : escapesRoot l d = false := by
  induction l generalizing d with
  | nil => rfl
  | cons a rest ih =>
    have ha : a ≠ ".." := h a (by simp)
    simp only [escapesRoot, if_neg ha]
    exact ih (d + 1) (fun s hs => h s (by simp [hs]))

/-- C1 (counterexample): the claim asserts the containment property for
both resolution routines, but FileService::resolve_file_path never filters
".." segments: the request path "/../x" against root srv/www resolves to
srv/www/../x, which escapes the document root. -/
theorem c1_resolve_file_path_escapes :
    underRoot ["srv", "www"]
      (resolve_file_path (fun _ => false) ["srv", "www"] "/../x") = false := by
  decide

/-- C1 (amended): StaticFileHandler::get_file_path drops every ".."
segment during normalization, so the path it resolves is always prefixed
by the configured root directory and never escapes it. -/
theorem c1_get_file_path_stays_under_root (root : List String) (path : String) :
    underRoot root (get_file_path root path) = true := by
  have h1 : ∀ s ∈ (pathComponents path).filter (fun c => c != ".."), s ≠ ".." := by
    intro s hs
    have := List.of_mem_filter hs
    simpa using this
  unfold get_file_path underRoot
  rw [List.drop_left, isPrefixList_append, escapesRoot_of_no_dotdot _ _ h1]
  rfl

/-! ### Route and virtual-host pattern matching

Route::new (src/routing/router.rs) builds the regex
"^" ++ pattern.replace("*", ".*") ++ "$" and matches with Regex::is_match;
no other character is escaped, so a '.' of the pattern keeps its regex
meaning.  The anchored regex language is realised by the executable
matcher routeGlob: a '*' pattern character matches any character
sequence, a '.' matches any single character, every other character
matches itself.  The embedding covers patterns free of the remaining
regex metacharacters; on those the regex would mean something else. -/

/-- A dot-star in a regex: the remainder matches when the continuation
accepts the string after skipping any number of leading characters. -/
def starSkip (f : List Char → Bool) : List Char → Bool
  | [] => f []
  | c :: s2 => f (c :: s2) || starSkip f s2

/-- Matcher for the language of the compiled route regex: '*' is any
sequence, '.' any single character, other characters literal, anchored at
both ends. -/
def routeGlob : List Char → List Char → Bool
  | [], s => s.isEmpty
  | c :: ps, s =>
    if c = '*' then starSkip (routeGlob ps) s
    else
      match s with
      | [] => false
      | x :: s2 => (c = '.' || c = x) && routeGlob ps s2

/-- Embeds Route::matches: the anchored regex built from the pattern,
applied to the whole path. -/
def routeMatches (pattern path : String) : Bool :=
  routeGlob pattern.data path.data

/-- Route record from src/routing/router.rs; the compiled regex field is
determined by the pattern and realised by routeMatches. -/
structure Route where
  pattern : String
  handler_type : String
  handler_params : Option String := none
deriving Repr, DecidableEq

/-- Embeds the matches method of Route. -/
def Route.matches (r : Route) (path : String) : Bool :=
  routeMatches r.pattern path

/-- The matcher the claim describes, following the spec words: all regex
metacharacters except '*' are escaped, so every non-'*' character of the
pattern (a '.' included) matches only itself. -/
def claimedRouteGlob : List Char → List Char → Bool
  | [], s => s.isEmpty
  | c :: ps, s =>
    if c = '*' then starSkip (claimedRouteGlob ps) s
    else
      match s with
      | [] => false
      | x :: s2 => (c = x) && claimedRouteGlob ps s2

/-! VirtualHost::new (src/routing/vhost.rs) builds the regex
"^" ++ pattern.replace(".", "\\.").replace("*", "[^.]*") ++ "$": dots are
escaped to literals and '*' becomes any sequence of non-dot characters.
Nothing lowercases the pattern or the hostname. -/

/-- A character-class star for non-dot characters: the remainder matches
when the continuation accepts the string after skipping any number of
leading non-dot characters. -/
def nonDotStarSkip (f : List Char → Bool) : List Char → Bool
  | [] => f []
  | c :: s2 => f (c :: s2) || (if c = '.' then false else nonDotStarSkip f s2)

/-- Matcher for the language of the compiled hostname regex: '*' is any
sequence of non-dot characters, every other character (dots included)
literal, anchored at both ends. -/
def vhostGlob : List Char → List Char → Bool
  | [], s => s.isEmpty
  | c :: ps, s =>
    if c = '*' then nonDotStarSkip (vhostGlob ps) s
    else
      match s with
      | [] => false
      | x :: s2 => (c = x) && vhostGlob ps s2

/-- Embeds VirtualHost::matches applied to a hostname. -/
def vhostMatches (hostname_pattern hostname : String) : Bool :=
  vhostGlob hostname_pattern.data hostname.data

theorem starSkip_true_iff (f : List Char → Bool) (s : List Char) :
    starSkip f s = true ↔ ∃ pre suf, s = pre ++ suf ∧ f suf = true := by
  induction s with
  | nil =>
    simp only [starSkip]
    constructor
    · intro h; exact ⟨[], [], rfl, h⟩
    · rintro ⟨pre, suf, heq, hf⟩
      rcases List.append_eq_nil.mp heq.symm with ⟨h1, h2⟩
      subst h2; exact hf
  | cons c s2 ih =>
    simp only [starSkip, Bool.or_eq_true, ih]
    constructor
    · rintro (h | ⟨pre, suf, heq, hf⟩)
      · exact ⟨[], c :: s2, rfl, h⟩
      · exact ⟨c :: pre, suf, by simp [heq], hf⟩
    · rintro ⟨pre, suf, heq, hf⟩
      cases pre with
      | nil =>
        left
        simp only [List.nil_append] at heq
        rw [heq]; exact hf
      | cons c2 pre2 =>
        right
        simp only [List.cons_append, List.cons.injEq] at heq
        exact ⟨pre2, suf, heq.2, hf⟩

theorem nonDotStarSkip_true_iff (f : List Char → Bool) (s : List Char) :
    nonDotStarSkip f s = true ↔
      ∃ pre suf, s = pre ++ suf ∧ '.' ∉ pre ∧ f suf = true := by
  induction s with
  | nil =>
    simp only [nonDotStarSkip]
    constructor
    · intro h; exact ⟨[], [], rfl, by simp, h⟩
    · rintro ⟨pre, suf, heq, hpre, hf⟩
      rcases List.append_eq_nil.mp heq.symm with ⟨h1, h2⟩
      subst h2; exact hf
  | cons c s2 ih =>
    by_cases hc : c = '.'
    · subst hc
      constructor
      · intro h
        have h2 : f ('.' :: s2) = true := by simpa [nonDotStarSkip] using h
        exact ⟨[], '.' :: s2, rfl, by simp, h2⟩
      · rintro ⟨pre, suf, heq, hpre, hf⟩
        cases pre with
        | nil =>
          simp only [List.nil_append] at heq
          rw [← heq] at hf
          simpa [nonDotStarSkip] using hf
        | cons c2 pre2 =>
          simp only [List.cons_append, List.cons.injEq] at heq
          exact absurd (heq.1 ▸ List.mem_cons_self c2 pre2) hpre
    · simp only [nonDotStarSkip, if_neg hc, Bool.or_eq_true, ih]
      constructor
      · rintro (h | ⟨pre, suf, heq, hpre, hf⟩)
        · exact ⟨[], c :: s2, rfl, by simp, h⟩
        · refine ⟨c :: pre, suf, by simp [heq], ?_, hf⟩
          intro hmem
          rcases List.mem_cons.mp hmem with h1 | h1
          · exact hc h1.symm
          · exact hpre h1
      · rintro ⟨pre, suf, heq, hpre, hf⟩
        cases pre with
        | nil =>
          left
          simp only [List.nil_append] at heq
          rw [heq]; exact hf
        | cons c2 pre2 =>
          right
          simp only [List.cons_append, List.cons.injEq] at heq
          refine ⟨pre2, suf, heq.2, ?_, hf⟩
          exact fun h => hpre (List.mem_cons_of_mem _ h)

theorem routeGlob_star_free (p : List Char) (hp : '*' ∉ p) (s : List Char) :
    routeGlob p s = true ↔ List.Forall₂ (fun c x => c = '.' ∨ c = x) p s := by
  induction p generalizing s with
  | nil =>
    simp only [routeGlob, List.isEmpty_iff, List.forall₂_nil_left_iff]
  | cons c ps ih =>
    have hc : c ≠ '*' := fun h => hp (h ▸ List.mem_cons_self c ps)
    have hps : '*' ∉ ps := fun h => hp (List.mem_cons_of_mem _ h)
    simp only [routeGlob, if_neg hc]
    cases s with
    | nil => simp
    | cons x s2 =>
      simp only [Bool.and_eq_true, Bool.or_eq_true, decide_eq_true_eq,
        List.forall₂_cons, ih hps s2]

theorem vhostGlob_star_free (p : List Char) (hp : '*' ∉ p) (s : List Char) :
    vhostGlob p s = true ↔ s = p := by
  induction p generalizing s with
  | nil =>
    simp only [vhostGlob, List.isEmpty_iff]
  | cons c ps ih =>
    have hc : c ≠ '*' := fun h => hp (h ▸ List.mem_cons_self c ps)
    have hps : '*' ∉ ps := fun h => hp (List.mem_cons_of_mem _ h)
    simp only [vhostGlob, if_neg hc]
    cases s with
    | nil => simp
    | cons x s2 =>
      simp only [Bool.and_eq_true, decide_eq_true_eq, List.cons.injEq, ih hps s2]
      constructor
      · rintro ⟨h1, h2⟩; exact ⟨h1.symm, h2⟩
      · rintro ⟨h1, h2⟩; exact ⟨h1.symm, h2⟩

theorem vhostGlob_star (rest : List Char) (h : '*' ∉ rest) (s : List Char) :
    vhostGlob ('*' :: rest) s = true ↔ ∃ pre, s = pre ++ rest ∧ '.' ∉ pre := by
  have : vhostGlob ('*' :: rest) s = nonDotStarSkip (vhostGlob rest) s := by
    simp [vhostGlob]
  rw [this, nonDotStarSkip_true_iff]
  constructor
  · rintro ⟨pre, suf, heq, hpre, hf⟩
    rw [vhostGlob_star_free rest h suf] at hf
    exact ⟨pre, by rw [heq, hf], hpre⟩
  · rintro ⟨pre, heq, hpre⟩
    exact ⟨pre, rest, heq, hpre, (vhostGlob_star_free rest h rest).mpr rfl⟩

/-- C4 (counterexample): the claim says all regex metacharacters except
star are escaped, so a '.' in a route pattern would match only itself.
Route::new escapes nothing: the pattern "/a.b" compiles to the regex
dot-any semantics and accepts the path "/azb", which the claimed escaped
semantics rejects. -/
theorem c4_dot_not_escaped_counterexample :
    routeMatches "/a.b" "/azb" = true ∧
    claimedRouteGlob "/a.b".data "/azb".data = false := by
  decide

/-- C4 (amended): Route::new replaces each star with dot-star and anchors
at start and end, giving a full-string match, but does not escape the
other regex metacharacters: on star-free patterns a match forces pattern
and path to have equal length with each pattern character either a '.'
(matching any path character) or exactly the path character; so "/a" does
not match the longer path "/ab" (no prefix matching), while "/a.b"
matches "/azb" as well as "/a.b". -/
theorem c4_route_match_full_string_dot_any :
    (∀ p s : List Char, '*' ∉ p →
        (routeGlob p s = true ↔
          List.Forall₂ (fun c x => c = '.' ∨ c = x) p s)) ∧
    routeMatches "/a" "/ab" = false ∧
    routeMatches "/a.b" "/a.b" = true ∧
    routeMatches "/a.b" "/azb" = true :=
  ⟨fun p s hp => routeGlob_star_free p hp s, by decide, by decide, by decide⟩

/-- C5 (counterexample): the claim says the host header is matched
case-insensitively; VirtualHost::new compiles the pattern without any
case folding and Router::route passes the host header through unchanged,
so "Example.com" fails against the pattern "example.com" that
"example.com" matches. -/
theorem c5_host_match_case_sensitive_counterexample :
    vhostMatches "example.com" "example.com" = true ∧
    vhostMatches "example.com" "Example.com" = false := by
  decide

/-- C5 (amended): the hostname wildcard matches exactly one label: a star
followed by a star-free remainder accepts precisely the hostnames made of
a dot-free (possibly empty) segment followed by the literal remainder;
hence the pattern star-dot-example-dot-com accepts "a.example.com" but
not "a.b.example.com" or "example.com".  The comparison is
case-sensitive, not case-insensitive as claimed. -/
theorem c5_vhost_wildcard_one_label :
    (∀ rest s : List Char, '*' ∉ rest →
        (vhostGlob ('*' :: rest) s = true ↔
          ∃ pre, s = pre ++ rest ∧ '.' ∉ pre)) ∧
    vhostMatches "*.example.com" "a.example.com" = true ∧
    vhostMatches "*.example.com" "a.b.example.com" = false ∧
    vhostMatches "*.example.com" "example.com" = false ∧
    vhostMatches "example.com" "Example.com" = false :=
  ⟨fun rest s h => vhostGlob_star rest h s, by decide, by decide, by decide,
    by decide⟩

/-! ### Router construction and dispatch (src/routing/router.rs, vhost.rs) -/

/-- Virtual host record; the compiled hostname regex is determined by the
pattern and realised by vhostMatches. -/
structure VirtualHost where
  hostname_pattern : String
  document_root : String
  routes : List Route
deriving Repr, DecidableEq

/-- Embeds VirtualHost::new: stores pattern and root and seeds the private
route list with the catch-all static route built by Route::new. -/
def VirtualHost.new (hostname_pattern document_root : String) : VirtualHost :=
  { hostname_pattern := hostname_pattern
    document_root := document_root
    routes := [{ pattern := "/*", handler_type := "static" }] }

/-- Embeds VirtualHost::matches. -/
def VirtualHost.matches (v : VirtualHost) (hostname : String) : Bool :=
  vhostMatches v.hostname_pattern hostname

/-- Embeds VirtualHost::match_route: first route in list order whose
pattern matches the path. -/
def VirtualHost.match_route (v : VirtualHost) (path : String) : Option Route :=
  v.routes.find? (fun r => r.matches path)

inductive RouterError where
  | NoMatchingRoute
  | InvalidRoutePattern
deriving Repr, DecidableEq

/-- Router state after Router::new: the configuration's virtual-host list
is reduced to the (host, root_dir) pairs the constructor consumes. -/
structure Router where
  vhosts : List VirtualHost
  default_routes : List Route
deriving Repr, DecidableEq

/-- Embeds Router::new: pushes the catch-all static route into the
default route list, then builds one virtual host per configured pair. -/
def Router.new (vhost_configs : List (String × String)) : Router :=
  { default_routes := [{ pattern := "/*", handler_type := "static" }]
    vhosts := vhost_configs.map (fun cfg => VirtualHost.new cfg.1 cfg.2) }

/-- Hostname extraction in Router::route: the host header up to the first
colon (the whole header when there is none). -/
def firstHostSegment (h : String) : String :=
  String.mk (h.data.takeWhile (fun c => c != ':'))

/-- Virtual-host scan of Router::route: the first vhost whose pattern
matches the hostname and whose private routes match the path wins; a
matching vhost without a matching route does not stop the scan. -/
def routeViaVhosts : List VirtualHost → String → String → Option Route
  | [], _, _ => none
  | v :: rest, hostname, path =>
    if v.matches hostname then
      match v.match_route path with
      | some r => some r
      | none => routeViaVhosts rest hostname path
    else routeViaVhosts rest hostname path

/-- Embeds Router::route: when a host header is present the virtual hosts
are scanned first; otherwise, and on scan failure, the default routes are
scanned; when nothing matches, NoMatchingRoute. -/
def Router.route (router : Router) (host : Option String) (path : String) :
    Except RouterError Route :=
  match (match host with
         | some h => routeViaVhosts router.vhosts (firstHostSegment h) path
         | none => none) with
  | some r => Except.ok r
  | none =>
    match router.default_routes.find? (fun r => r.matches path) with
    | some r => Except.ok r
    | none => Except.error RouterError.NoMatchingRoute

theorem starSkip_isEmpty_true (s : List Char) :
    starSkip (fun x : List Char => x.isEmpty) s = true := by
  induction s with
  | nil => rfl
  | cons c s2 ih => simp [starSkip, ih]

theorem catch_all_matches (rest : List Char) :
    routeMatches "/*" (String.mk ('/' :: rest)) = true := by
  show routeGlob ['/', '*'] ('/' :: rest) = true
  simp [routeGlob, starSkip_isEmpty_true]

theorem route_ok_of_default (router : Router) (host : Option String)
    (path : String) (r0 : Route)
    (h : router.default_routes.find? (fun r => r.matches path) = some r0) :
    ∃ r, Router.route router host path = Except.ok r := by
  unfold Router.route
  cases hvia : (match host with
    | some h2 => routeViaVhosts router.vhosts (firstHostSegment h2) path
    | none => none) with
  | some r => exact ⟨r, rfl⟩
  | none => exact ⟨r0, by rw [h]⟩

theorem catch_all_list_find (path : String) (h : routeMatches "/*" path = true) :
    List.find? (fun r : Route => r.matches path)
      [{ pattern := "/*", handler_type := "static" }] =
      some { pattern := "/*", handler_type := "static" } := by
  simp [List.find?, Route.matches, h]

/-- C10: Router::new seeds the default route list with the catch-all
static route and every VirtualHost::new seeds its private list with the
same catch-all, so for any request path starting with '/' the router
always answers Ok: the NoMatchingRoute branch is unreachable and every
virtual host resolves the path from its own route list. -/
theorem c10_catch_all_makes_routing_total (cfgs : List (String × String))
    (host : Option String) (rest : List Char) :
    (∃ r, Router.route (Router.new cfgs) host (String.mk ('/' :: rest)) =
        Except.ok r) ∧
    (∀ v ∈ (Router.new cfgs).vhosts,
        (v.match_route (String.mk ('/' :: rest))).isSome = true) := by
  have hfind := catch_all_list_find (String.mk ('/' :: rest))
    (catch_all_matches rest)
  constructor
  · exact route_ok_of_default (Router.new cfgs) host (String.mk ('/' :: rest))
      { pattern := "/*", handler_type := "static" } hfind
  · intro v hv
    rcases List.mem_map.mp hv with ⟨cfg, _, hveq⟩
    have hroutes : v.routes = [{ pattern := "/*", handler_type := "static" }] := by
      rw [← hveq]; rfl
    unfold VirtualHost.match_route
    rw [hroutes, hfind]
    rfl

/-! ### Access control (src/security/acl.rs)

The request carries the data the ACL conditions consume: the URI path,
the optional User-Agent header and the optional host header.  An IP
address is its byte representation (a list of bytes, 4 for IPv4).  The
compiled Regex held by a Path or UserAgent condition is embedded as its
is_match function. -/

/-- IP address as the list of its bytes. -/
abbrev IpAddr : Type := List Nat

/-- Request data consumed by the ACL. -/
structure Request where
  path : String
  userAgent : Option String := none
  host : Option String := none

/-- Access condition variants of src/security/acl.rs. -/
inductive AccessCondition where
  | ip (addr : IpAddr)
  | network (cidr : String)
  | path (pattern : String → Bool)
  | userAgent (pattern : String → Bool)
  | all

inductive AclError where
  | AccessDenied
  | ConfigurationError
deriving Repr, DecidableEq

/-- Embeds AccessCondition::matches: an Ip condition compares with the
client address when one is present; the Network condition is the source's
unimplemented stub and always returns false; Path and UserAgent apply
their compiled pattern (missing User-Agent never matches); All matches
everything. -/
def AccessCondition.matches : AccessCondition → Request → Option IpAddr → Bool
  | .ip addr, _, some client => client = addr
  | .ip _, _, none => false
  | .network _, _, _ => false
  | .path pattern, req, _ => pattern req.path
  | .userAgent pattern, req, _ =>
    match req.userAgent with
    | some ua => pattern ua
    | none => false
  | .all, _, _ => true

/-- Allow or Deny wrapper around a condition. -/
inductive AccessRule where
  | allow (c : AccessCondition)
  | deny (c : AccessCondition)

/-- Embeds AccessRule::matches. -/
def AccessRule.matches (r : AccessRule) (req : Request)
    (client_ip : Option IpAddr) : Bool :=
  match r with
  | .allow c => c.matches req client_ip
  | .deny c => c.matches req client_ip

/-- Embeds AccessRule::allows. -/
def AccessRule.allows : AccessRule → Bool
  | .allow _ => true
  | .deny _ => false

/-- ACL: ordered rule list plus the default action. -/
structure Acl where
  rules : List AccessRule
  default_allow : Bool

/-- Loop body of Acl::check_access over the remaining rules. -/
def checkRules (req : Request) (client_ip : Option IpAddr) :
    List AccessRule → Bool → Except AclError Unit
  | [], default_allow =>
    if default_allow then Except.ok () else Except.error AclError.AccessDenied
  | r :: rest, default_allow =>
    if r.matches req client_ip then
      if r.allows then Except.ok () else Except.error AclError.AccessDenied
    else checkRules req client_ip rest default_allow

/-- Embeds Acl::check_access: scan the rules in order; the first matching
rule decides; otherwise the default does. -/
def Acl.check_access (acl : Acl) (req : Request) (client_ip : Option IpAddr) :
    Except AclError Unit :=
  checkRules req client_ip acl.rules acl.default_allow

/-- Modelled from the spec: true CIDR containment for the Network
condition, which the source leaves as an unimplemented stub.  The CIDR
string "a.b.c.d/p" contains an address when the two agree on the top p
bits of their 32-bit big-endian byte representations. -/
def cidrContains (cidr : String) (addr : IpAddr) : Bool :=
  match splitCharAux '/' cidr.data [] with
  | [net, plen] =>
    match parseNat plen with
    | some p =>
      if p ≤ 32 then
        let netBytes := (splitCharAux '.' net.data []).filterMap parseNat
        let a := addr.foldl (fun acc b => acc * 256 + b) 0
        let n := netBytes.foldl (fun acc b => acc * 256 + b) 0
        if netBytes.length = 4 ∧ addr.length = 4 then
          a / 2 ^ (32 - p) = n / 2 ^ (32 - p)
        else false
      else false
    | none => false
  | _ => false

/-- C2: the Network condition in AccessCondition::matches is an
unimplemented stub that never matches any request, even though true CIDR
containment — which the spec requires and the code's own comment admits
is missing — holds for the client 10.0.0.1 inside 10.0.0.0/8. -/
theorem c2_network_condition_is_stub :
    AccessCondition.matches (.network "10.0.0.0/8") { path := "/" }
      (some [10, 0, 0, 1]) = false ∧
    cidrContains "10.0.0.0/8" [10, 0, 0, 1] = true := by
  constructor
  · rfl
  · decide

theorem checkRules_eq_find (req : Request) (ip : Option IpAddr)
    (rules : List AccessRule) (d : Bool) :
    checkRules req ip rules d =
      (match rules.find? (fun r => r.matches req ip) with
       | some r =>
         if r.allows then Except.ok () else Except.error AclError.AccessDenied
       | none =>
         if d then Except.ok () else Except.error AclError.AccessDenied) := by
  induction rules with
  | nil => rfl
  | cons r rest ih =>
    cases hm : r.matches req ip with
    | true => simp [checkRules, List.find?, hm]
    | false => simp [checkRules, List.find?, hm, ih]

/-- C3: check_access answers Ok exactly when the first rule in insertion
order whose condition matches the request is an Allow rule, or when no
rule matches and the default allows; it answers AccessDenied exactly in
the complementary cases.  The first matching rule is the one found by the
ordered scan, so a matching rule later in the list never overrides it. -/
theorem c3_first_match_wins (acl : Acl) (req : Request) (ip : Option IpAddr) :
    (acl.check_access req ip = Except.ok () ↔
      (match acl.rules.find? (fun r => r.matches req ip) with
       | some r => r.allows = true
       | none => acl.default_allow = true)) ∧
    (acl.check_access req ip = Except.error AclError.AccessDenied ↔
      (match acl.rules.find? (fun r => r.matches req ip) with
       | some r => r.allows = false
       | none => acl.default_allow = false)) := by
  unfold Acl.check_access
  rw [checkRules_eq_find]
  cases hf : acl.rules.find? (fun r => r.matches req ip) with
  | some r => cases ha : r.allows <;> simp [ha]
  | none => cases hd : acl.default_allow <;> simp [hd]

/-! ### URL rewriting (src/routing/rewrite.rs)

A rewrite rule holds a compiled regex and a replacement string; the regex
object is embedded by its two observable operations, is_match and
replace_all with the rule's replacement. -/

/-- Rewrite rule: pattern_matches embeds Regex::is_match of the compiled
pattern, replace_all embeds Regex::replace_all with the stored
replacement; last, redirect and redirect_status are the rule flags. -/
structure RewriteRule where
  pattern_matches : String → Bool
  replace_all : String → String
  last : Bool
  redirect : Bool
  redirect_status : Option Nat

/-- Result record of RewriteRule::apply. -/
structure RewriteResult where
  new_path : String
  is_last : Bool
  is_redirect : Bool
  redirect_status : Option Nat
deriving Repr, DecidableEq

/-- Embeds RewriteRule::apply: on a pattern match, the substituted path
together with the rule's flags; otherwise nothing. -/
def RewriteRule.apply (r : RewriteRule) (path : String) : Option RewriteResult :=
  if r.pattern_matches path then
    some { new_path := r.replace_all path
           is_last := r.last
           is_redirect := r.redirect
           redirect_status := r.redirect_status }
  else none

/-- Loop body of Rewriter::process: walks the rules with the working path
and the last recorded result; a match updates both and a rule marked last
stops the walk. -/
def processRules : List RewriteRule → String → Option RewriteResult →
    Option RewriteResult
  | [], _, result => result
  | rule :: rest, path, result =>
    match rule.apply path with
    | some rr =>
      if rr.is_last then some rr else processRules rest rr.new_path (some rr)
    | none => processRules rest path result

/-- Embeds Rewriter::process on the request's path. -/
def rewriterProcess (rules : List RewriteRule) (path : String) :
    Option RewriteResult :=
  processRules rules path none

/-- Specification-side recorder: the list of results the walk records, in
order, stopping after a rule marked last. -/
def rewriteTrace : List RewriteRule → String → List RewriteResult
  | [], _ => []
  | rule :: rest, path =>
    match rule.apply path with
    | some rr =>
      if rr.is_last then [rr] else rr :: rewriteTrace rest rr.new_path
    | none => rewriteTrace rest path

theorem getLast?_cons_eq {α : Type} (a : α) (l : List α) :
    (a :: l).getLast? =
      (match l.getLast? with
       | some x => some x
       | none => some a) := by
  induction l generalizing a with
  | nil => rfl
  | cons b m ih =>
    rw [List.getLast?_cons_cons, ih b]
    cases hm : m.getLast? with
    | some x => rfl
    | none => rfl

theorem processRules_acc (rules : List RewriteRule) (path : String)
    (acc : Option RewriteResult) :
    processRules rules path acc =
      (match (rewriteTrace rules path).getLast? with
       | some r => some r
       | none => acc) := by
  induction rules generalizing path acc with
  | nil => rfl
  | cons rule rest ih =>
    simp only [processRules, rewriteTrace]
    cases happ : rule.apply path with
    | some rr =>
      cases hl : rr.is_last with
      | true => simp [hl]
      | false =>
        simp only [hl, Bool.false_eq_true, if_false]
        rw [ih rr.new_path (some rr), getLast?_cons_eq]
        cases ht : (rewriteTrace rest rr.new_path).getLast? with
        | some x => rfl
        | none => rfl
    | none => exact ih path acc

theorem rewriteTrace_nil_of_no_match (rules : List RewriteRule) (path : String)
    (h : ∀ r ∈ rules, r.pattern_matches path = false) :
    rewriteTrace rules path = [] := by
  induction rules with
  | nil => rfl
  | cons rule rest ih =>
    have h0 : rule.pattern_matches path = false := h rule (by simp)
    simp only [rewriteTrace, RewriteRule.apply, h0, Bool.false_eq_true,
      if_false]
    exact ih (fun r hr => h r (List.mem_cons_of_mem _ hr))

/-- C6: Rewriter::process walks the rules in order, feeding each matching
rule's substitution result into the next rule and recording it, stops
after a rule marked last, and returns the last recorded result: exactly
the last element of the recorded trace.  When no rule matches the
original path, nothing is recorded and the result is none, leaving the
caller's path unchanged. -/
theorem c6_rewriter_returns_last_recorded (rules : List RewriteRule)
    (path : String) :
    rewriterProcess rules path = (rewriteTrace rules path).getLast? ∧
    ((∀ r ∈ rules, r.pattern_matches path = false) →
      rewriterProcess rules path = none) := by
  constructor
  · rw [rewriterProcess, processRules_acc]
    cases h : (rewriteTrace rules path).getLast? with
    | some x => rfl
    | none => rfl
  · intro h
    rw [rewriterProcess, processRules_acc, rewriteTrace_nil_of_no_match rules path h]
    rfl

/-- C6 (witness): with no rules, process returns none. -/
theorem c6_rewriter_returns_last_recorded_witness :
    rewriterProcess [] "/index.html" = none :=
  (c6_rewriter_returns_last_recorded [] "/index.html").2 (by simp)

/-! ### Compression negotiation (src/compression.rs, src/utils/compression.rs)

Byte payloads are lists of naturals.  The external gzip, deflate and
brotli encoders are parameters: the fallible flate2 encoders return an
optional payload, the infallible compress dispatcher of src/compression.rs
is a function of payload and scheme. -/

/-- ASCII lowercasing of one character, embedding str::to_lowercase on
the ASCII header strings the negotiation reads. -/
def lowerChar (c : Char) : Char :=
  if 65 ≤ c.toNat ∧ c.toNat ≤ 90 then Char.ofNat (c.toNat + 32) else c

/-- String lowercasing. -/
def lowerStr (s : String) : String :=
  String.mk (s.data.map lowerChar)

/-- Starts-with over character lists, embedding str::starts_with. -/
def charsStart : List Char → List Char → Bool
  | _, [] => true
  | [], _ :: _ => false
  | c :: s2, p :: pre2 => (c = p) && charsStart s2 pre2

/-- Embeds str::starts_with. -/
def strStarts (s pre : String) : Bool :=
  charsStart s.data pre.data

/-- Substring containment over character lists, embedding str::contains:
the needle occurs at the head of some suffix. -/
def charsContain : List Char → List Char → Bool
  | [], needle => charsStart [] needle
  | c :: s2, needle => charsStart (c :: s2) needle || charsContain s2 needle

/-- Embeds str::contains with a literal needle. -/
def strContains (s pat : String) : Bool :=
  charsContain s.data pat.data

/-- Compression scheme variants of src/compression.rs. -/
inductive CompressionType where
  | none
  | gzip
  | brotli
deriving Repr, DecidableEq

/-- Embeds CompressionType::content_encoding. -/
def content_encoding : CompressionType → Option String
  | CompressionType.none => Option.none
  | CompressionType.gzip => some "gzip"
  | CompressionType.brotli => some "br"

/-- Embeds CompressionType::from_accept_encoding: lowercase the header,
then substring containment, brotli before gzip; no header or no match
means no compression.  There is no deflate variant in this path. -/
def fromAcceptEncoding (header : Option String) : CompressionType :=
  match header with
  | Option.none => CompressionType.none
  | some h =>
    let encodings := lowerStr h
    if strContains encodings "br" then CompressionType.brotli
    else if strContains encodings "gzip" then CompressionType.gzip
    else CompressionType.none

/-- Embeds should_compress, identical in src/utils/compression.rs and
src/server.rs: the MIME type starts with one of the compressible
prefixes. -/
def should_compress (mime : String) : Bool :=
  ["text/", "application/json", "application/javascript", "application/xml",
    "image/svg+xml", "application/wasm"].any (fun t => strStarts mime t)

/-- Embeds compress_if_needed (src/utils/compression.rs): payloads under
1024 bytes or non-compressible MIME types pass through; otherwise gzip is
tried first on substring containment in the raw Accept-Encoding header,
then deflate; encoder failure falls back to the uncompressed payload.
There is no brotli branch in this path. -/
def compress_if_needed (gzipC deflateC : List Nat → Option (List Nat))
    (data : List Nat) (mime_type accept_encoding : String) :
    List Nat × Option String :=
  if decide (data.length < 1024) || !should_compress mime_type then
    (data, Option.none)
  else if strContains accept_encoding "gzip" then
    match gzipC data with
    | some compressed => (compressed, some "gzip")
    | Option.none => (data, Option.none)
  else if strContains accept_encoding "deflate" then
    match deflateC data with
    | some compressed => (compressed, some "deflate")
    | Option.none => (data, Option.none)
  else (data, Option.none)

/-- Embeds process_content_with_compression (src/server.rs): when the
configuration flag is off or the MIME type is not compressible the
content passes through with no encoding header; otherwise the scheme
negotiated by from_accept_encoding is applied — with no minimum-size
check in this path. -/
def process_content_with_compression (compression : Bool)
    (accept_encoding : Option String) (mime : String) (content : List Nat)
    (compressFn : List Nat → CompressionType → List Nat) :
    List Nat × Option String :=
  if !compression || !should_compress mime then (content, Option.none)
  else
    let ct := fromAcceptEncoding accept_encoding
    if ct = CompressionType.none then (content, Option.none)
    else (compressFn content ct, content_encoding ct)

theorem process_content_applies (accept : Option String) (mime : String)
    (content : List Nat) (f : List Nat → CompressionType → List Nat)
    (hmime : should_compress mime = true)
    (hne : fromAcceptEncoding accept ≠ CompressionType.none) :
    process_content_with_compression true accept mime content f =
      (f content (fromAcceptEncoding accept),
        content_encoding (fromAcceptEncoding accept)) := by
  simp [process_content_with_compression, hmime, hne]

theorem compress_if_needed_selects_gzip (gzipC deflateC : List Nat → Option (List Nat))
    (data : List Nat) (mime acc : String) (c : List Nat)
    (hacc : strContains acc "gzip" = true) (hgz : gzipC data = some c)
    (hsize : 1024 ≤ data.length) (hmime : should_compress mime = true) :
    compress_if_needed gzipC deflateC data mime acc = (c, some "gzip") := by
  have h1 : decide (data.length < 1024) = false := by
    simp [Nat.not_lt.mpr hsize]
  simp [compress_if_needed, h1, hmime, hacc, hgz]

/-- C7 (counterexample): the claim orders the preference
Brotli over Gzip over Deflate in both negotiation routines, so a
2000-byte text/plain body with header "br, gzip" would be
Brotli-compressed; compress_if_needed has no brotli branch and selects
gzip on that very input. -/
theorem c7_compress_if_needed_picks_gzip_not_brotli :
    (compress_if_needed (fun d => some d) (fun d => some d)
        (List.replicate 2000 0) "text/plain" "br, gzip").2 = some "gzip" ∧
    some "gzip" ≠ some "br" := by
  constructor
  · rw [compress_if_needed_selects_gzip (fun d => some d) (fun d => some d)
      (List.replicate 2000 0) "text/plain" "br, gzip" (List.replicate 2000 0)
      (by decide) rfl (by rw [List.length_replicate]; omega) (by decide)]
  · decide

/-- C7 (amended): the two negotiation routines have different preference
chains.  CompressionType::from_accept_encoding (server.rs pipeline)
prefers brotli over gzip by substring containment in the lowercased
header and supports no deflate, so the 2000-byte text/plain example with
header "br, gzip" is brotli-compressed there; compress_if_needed (static
file handler) prefers gzip over deflate by substring containment and
never selects brotli. -/
theorem c7_preference_orders_per_routine :
    (∀ h : String, strContains (lowerStr h) "br" = true →
        fromAcceptEncoding (some h) = CompressionType.brotli) ∧
    (∀ gz df data mime acc,
        (compress_if_needed gz df data mime acc).2 ≠ some "br") ∧
    (∀ gz df data mime acc c, strContains acc "gzip" = true →
        gz data = some c → 1024 ≤ data.length → should_compress mime = true →
        compress_if_needed gz df data mime acc = (c, some "gzip")) ∧
    fromAcceptEncoding (some "br, gzip") = CompressionType.brotli ∧
    process_content_with_compression true (some "br, gzip") "text/plain"
        (List.replicate 2000 0) (fun d _ => d) =
      (List.replicate 2000 0, some "br") := by
  have hbrotli : fromAcceptEncoding (some "br, gzip") = CompressionType.brotli := by
    decide
  refine ⟨?_, ?_, ?_, hbrotli, ?_⟩
  · intro h hbr
    simp [fromAcceptEncoding, hbr]
  · intro gz df data mime acc
    unfold compress_if_needed
    split
    · simp
    · split
      · cases hgz : gz data with
        | some c => simp
        | none => simp
      · split
        · cases hdf : df data with
          | some c => simp
          | none => simp
        · simp
  · exact fun gz df data mime acc c hacc hgz hsize hmime =>
      compress_if_needed_selects_gzip gz df data mime acc c hacc hgz hsize hmime
  · have h1 : should_compress "text/plain" = true := by decide
    rw [process_content_applies (some "br, gzip") "text/plain" _ _ h1
      (by rw [hbrotli]; decide), hbrotli, content_encoding]

/-- C7 (witness): the brotli-priority clause at the header "br". -/
theorem c7_preference_orders_per_routine_witness :
    fromAcceptEncoding (some "br") = CompressionType.brotli :=
  c7_preference_orders_per_routine.1 "br" (by decide)

/-- C8 (counterexample): the claim requires a minimum size of 1024 bytes
before compression is applied; the server.rs pipeline compresses a
10-byte text/plain body and sets the encoding header. -/
theorem c8_server_pipeline_has_no_size_threshold :
    (process_content_with_compression true (some "gzip") "text/plain"
        (List.replicate 10 0) (fun d _ => d)).2 = some "gzip" ∧
    (List.replicate 10 (0 : Nat)).length < 1024 := by
  constructor
  · rfl
  · decide

/-- C8 (amended): compress_if_needed passes the body through unmodified
with no encoding whenever the payload is under 1024 bytes or the MIME
type is not compressible (it sees no configuration flag); the server.rs
pipeline passes the body through whenever compression is disabled, the
MIME type is not compressible, or no scheme is negotiated — but applies
no minimum-size threshold: a compressible body of any length with header
"gzip" gets the gzip encoding. -/
theorem c8_compression_gating :
    (∀ gz df (data : List Nat) mime acc, data.length < 1024 →
        compress_if_needed gz df data mime acc = (data, Option.none)) ∧
    (∀ gz df data mime acc, should_compress mime = false →
        compress_if_needed gz df data mime acc = (data, Option.none)) ∧
    (∀ accept mime content f,
        process_content_with_compression false accept mime content f =
          (content, Option.none)) ∧
    (∀ flag accept mime content f, should_compress mime = false →
        process_content_with_compression flag accept mime content f =
          (content, Option.none)) ∧
    (∀ flag accept mime content f,
        fromAcceptEncoding accept = CompressionType.none →
        process_content_with_compression flag accept mime content f =
          (content, Option.none)) ∧
    (∀ n, (process_content_with_compression true (some "gzip") "text/plain"
        (List.replicate n 0) (fun d _ => d)).2 = some "gzip") := by
  refine ⟨?_, ?_, ?_, ?_, ?_, ?_⟩
  · intro gz df data mime acc hsize
    simp [compress_if_needed, hsize]
  · intro gz df data mime acc hmime
    simp [compress_if_needed, hmime]
  · intro accept mime content f
    simp [process_content_with_compression]
  · intro flag accept mime content f hmime
    simp [process_content_with_compression, hmime]
  · intro flag accept mime content f hneg
    cases hflag : flag with
    | false => simp [process_content_with_compression]
    | true =>
      cases hmime : should_compress mime with
      | false => simp [process_content_with_compression, hmime]
      | true => simp [process_content_with_compression, hmime, hneg]
  · intro n
    have h1 : should_compress "text/plain" = true := by decide
    have h2 : fromAcceptEncoding (some "gzip") = CompressionType.gzip := by
      decide
    simp [process_content_with_compression, h1, h2, content_encoding]

/-- C8 (witness): the size clause of compress_if_needed at a 3-byte
payload. -/
theorem c8_compression_gating_witness :
    compress_if_needed (fun d => some d) (fun d => some d) [1, 2, 3]
      "text/plain" "gzip" = ([1, 2, 3], Option.none) :=
  c8_compression_gating.1 (fun d => some d) (fun d => some d) [1, 2, 3]
    "text/plain" "gzip" (by decide)

/-! ### File service and error responses (src/file_service.rs, src/server.rs)

The filesystem is an abstraction: contents by path, a directory test,
MIME detection and modification metadata.  An anyhow error is modelled by
its Display string; the context combinator replaces that string with the
context message, because anyhow's Display shows only the outermost
message of the chain. -/

/-- File response record of src/file_service.rs. -/
structure FileResponse where
  content : List Nat
  mime : String
  modified : Option Nat
deriving Repr, DecidableEq

/-- Filesystem abstraction consumed by the file service. -/
structure FileSystem where
  file : List String → Option (List Nat)
  isDir : List String → Bool
  mimeOf : List String → String
  modifiedAt : List String → Option Nat

/-- Embeds FileService::read_file: fs::read propagates an I/O error for a
missing file; its display text is irrelevant downstream because the
context wrapper replaces it. -/
def read_file (fs : FileSystem) (path : List String) :
    Except String FileResponse :=
  match fs.file path with
  | some c =>
    Except.ok { content := c, mime := fs.mimeOf path,
                modified := fs.modifiedAt path }
  | Option.none => Except.error "讀取檔案失敗"

/-- Embeds FileService::fallback_to_spa_if_enabled: with the SPA flag set
the root index.html is read; otherwise the bail whose message carries the
not-found marker the error response later greps for. -/
def fallback_to_spa_if_enabled (fs : FileSystem) (spa : Bool)
    (root : List String) : Except String FileResponse :=
  if spa then read_file fs (root ++ ["index.html"])
  else Except.error "找不到請求的檔案"

/-- Display form of a path with '/' separators, mirroring
Path::display. -/
def joinPath : List String → String
  | [] => ""
  | [s] => s
  | s :: rest => s ++ "/" ++ joinPath rest

/-- Embeds FileService::serve_file: resolve the path, read it, fall back
to the SPA index on failure, and wrap any remaining error in the anyhow
context whose message replaces the inner error's display string. -/
def serve_file (fs : FileSystem) (spa : Bool) (root : List String)
    (req_path : String) : Except String FileResponse :=
  let path := resolve_file_path fs.isDir root req_path
  match read_file fs path with
  | Except.ok r => Except.ok r
  | Except.error _ =>
    match fallback_to_spa_if_enabled fs spa root with
    | Except.ok r => Except.ok r
    | Except.error _ => Except.error ("無法提供檔案: " ++ joinPath path)

/-- Embeds the status choice of build_error_response (src/server.rs): 404
when the error text contains the not-found marker, 500 otherwise. -/
def build_error_response_status (err : String) : Nat :=
  if strContains err "找不到" then 404 else 500

/-- Embeds handle_request's outcome as a status code: 200 on success,
otherwise the status build_error_response derives from the error. -/
def handle_request_status (fs : FileSystem) (spa : Bool) (root : List String)
    (req_path : String) : Nat :=
  match serve_file fs spa root req_path with
  | Except.ok _ => 200
  | Except.error e => build_error_response_status e

/-- Empty document root. -/
def fsEmpty : FileSystem :=
  { file := fun _ => Option.none
    isDir := fun _ => false
    mimeOf := fun _ => "application/octet-stream"
    modifiedAt := fun _ => Option.none }

/-- Document root srv holding only index.html with content byte 42. -/
def fsSpaRoot : FileSystem :=
  { file := fun p => if p = ["srv", "index.html"] then some [42] else Option.none
    isDir := fun _ => false
    mimeOf := fun _ => "text/html"
    modifiedAt := fun _ => Option.none }

/-- C9: the SPA half of the claim holds — a missing file with SPA mode on
is answered with the root index.html contents — but the 404 half does
not: for a missing file with SPA off, serve_file wraps the not-found bail
in the context message, anyhow displays only that outermost message, the
not-found marker the status branch greps for is gone, and the response is
500, not the 404 the code's own build_error_response branch and the spec
intend. -/
theorem c9_missing_file_yields_500_not_404 :
    handle_request_status fsEmpty false ["srv"] "/missing.txt" = 500 ∧
    serve_file fsEmpty false ["srv"] "/missing.txt" =
      Except.error "無法提供檔案: srv/missing.txt" ∧
    serve_file fsSpaRoot true ["srv"] "/app.js" =
      Except.ok { content := [42], mime := "text/html",
                  modified := Option.none } := by
  refine ⟨by decide, by rfl, by rfl⟩

end Kaserve
